import Mathlib

/-!
Verification of the ingest-stream-forge core.

Shallow embedding of the job-lifecycle state machine and the client-side
HLS transcoding pipeline of the repository:

* `src/unnamed/part_000` (the `hlsTranscoder` module): `transcodeToHls`,
  `buildMasterPlaylist`, `parseHlsFiles`, `inferExt`;
* `src/src/components/TranscodeButton.tsx`: the `startTranscode` pipeline
  and the ledger (`transcoding_jobs`) update calls it issues.

JavaScript strings are modelled as Lean `String`; the string primitives the
source uses (`split(/\r?\n/)`, `startsWith`, `trim`, the
`/URI="([^"]+)"/` regex match) are embedded below with JS semantics.
JavaScript numbers are modelled as `Nat`/`Int`/`ℚ` with exact arithmetic.
-/

namespace IngestStreamForge

/-! ## String primitives (JavaScript semantics) -/

/-- JS `s.startsWith(p)`. -/
def strStartsWith (s p : String) : Bool :=
  p.data.isPrefixOf s.data

/-- JS `s.trim()`: strip leading and trailing whitespace. -/
def strTrim (s : String) : String :=
  String.mk (((s.data.dropWhile Char.isWhitespace).reverse.dropWhile Char.isWhitespace).reverse)

/-- Worker for `splitLines`: split a character list at every `\n`,
letting the separator consume one directly preceding `\r`
(the JS regex `/\r?\n/`). `acc` holds the current line, reversed,
so a `\r` directly before the `\n` sits at its head and is dropped. -/
def splitLinesAux : List Char → List Char → List String
  | [], acc => [String.mk acc.reverse]
  | c :: rest, acc =>
    if c = '\n' then
      String.mk (if acc.head? = some '\r' then acc.tail else acc).reverse ::
        splitLinesAux rest []
    else splitLinesAux rest (c :: acc)

/-- JS `playlist.split(/\r?\n/)`. -/
def splitLines (s : String) : List String :=
  splitLinesAux s.data []

/-- Anchored match of the JS regex `/URI="([^"]+)"/` at the start of the
given character list: the literal `URI="`, then one or more non-quote
characters, then a closing quote. -/
def tryUriAt : List Char → Option String
  | 'U' :: 'R' :: 'I' :: '=' :: '"' :: rest =>
    let body := rest.takeWhile (fun c => c ≠ '"')
    if 0 < body.length ∧ rest.drop body.length ≠ [] then some (String.mk body)
    else none
  | _ => none

/-- Worker for `uriMatch`: leftmost match of `/URI="([^"]+)"/`, scanning
every start position left to right as a regex engine does. -/
def uriMatchAux : List Char → Option String
  | [] => none
  | c :: rest =>
    match tryUriAt (c :: rest) with
    | some u => some u
    | none => uriMatchAux rest

/-- JS `line.match(/URI="([^"]+)"/)?.[1]`. -/
def uriMatch (s : String) : Option String :=
  uriMatchAux s.data

/-! ## Manifest Composer (`src/unnamed/part_000`, lines 854–880) -/

/-- What one playlist line adds to the set built by `parseHlsFiles`:
the loop body

```js
if (!line || line.startsWith('#')) {
  if (line.startsWith('#EXT-X-MAP')) {
    const m = line.match(/URI="([^"]+)"/);
    if (m?.[1]) files.add(m[1]);
  }
  continue;
}
files.add(line.trim());
```

Each iteration adds at most one string, returned here as an `Option`.
(The capture group `[^"]+` is nonempty whenever it matches, so `m?.[1]`
is truthy exactly when `uriMatch` returns `some`.) -/
def lineContribution (line : String) : Option String :=
  if line = "" ∨ strStartsWith line "#" then
    if strStartsWith line "#EXT-X-MAP" then uriMatch line else none
  else
    some (strTrim line)

/-- JS `Set.add`: append if not already present (insertion order kept). -/
def addUnique (l : List String) (x : String) : List String :=
  if x ∈ l then l else l ++ [x]

/-- `parseHlsFiles` as the insertion-ordered list of set elements:
the JS `Set` iterated in insertion order. -/
def parseHlsFilesList (playlist : String) : List String :=
  (splitLines playlist).foldl
    (fun acc line =>
      match lineContribution line with
      | some x => addUnique acc x
      | none => acc)
    []

/-- `parseHlsFiles` (`src/unnamed/part_000`, lines 865–880) as a finite set. -/
def parseHlsFiles (playlist : String) : Finset String :=
  (parseHlsFilesList playlist).toFinset

/-- The `#EXT-X-STREAM-INF` line of `buildMasterPlaylist`:
`AVERAGE-BANDWIDTH` is `Math.floor(bandwidth * 0.85)`, embedded as
exact natural division `bandwidth * 85 / 100`. -/
def streamInfLine (width height bandwidth : Nat) : String :=
  "#EXT-X-STREAM-INF:BANDWIDTH=" ++ Nat.repr bandwidth ++
    ",AVERAGE-BANDWIDTH=" ++ Nat.repr (bandwidth * 85 / 100) ++
    ",RESOLUTION=" ++ Nat.repr width ++ "x" ++ Nat.repr height ++
    ",CODECS=\"avc1.64001f,mp4a.40.2\""

/-- `buildMasterPlaylist` (`src/unnamed/part_000`, lines 854–863):
`['#EXTM3U', '#EXT-X-VERSION:7', streamInf, variant, ''].join('\n')`. -/
def buildMasterPlaylist (variant : String) (width height bandwidth : Nat) : String :=
  "#EXTM3U" ++ "\n" ++ "#EXT-X-VERSION:7" ++ "\n" ++
    streamInfLine width height bandwidth ++ "\n" ++ variant ++ "\n"

/-! ## Transcoding Engine (`transcodeToHls`, `src/unnamed/part_000`, lines 770–852)

The ffmpeg WebAssembly runtime is external: its observable effects on one
successful invocation are the variant playlist text it writes
(`variantText`), the byte sizes of the scratch files (`fileSize`), and the
sequence of progress ratios it reports (`ratios`). `transcodeToHls` is
embedded as a function of those. -/

def variantName : String := "v720p.m3u8"

def initName : String := "v720p_init.mp4"

def masterName : String := "master.m3u8"

def hlsWidth : Nat := 1280

def hlsHeight : Nat := 720

/-- `vBitrate = 2000` kbps (approximate). -/
def vBitrate : Nat := 2000

/-- `aBitrate = 128` kbps. -/
def aBitrate : Nat := 128

/-- `(vBitrate + aBitrate) * 1000`, used both as the master playlist
`BANDWIDTH` and as `approxBitrate`. -/
def approxBitrate : Nat := (vBitrate + aBitrate) * 1000

/-- Line 775: `onProgress(Math.min(0.99, progress))`. -/
def clampRatio (r : ℚ) : ℚ := min (99/100 : ℚ) r

/-- The full sequence of values passed to `onProgress` during one
successful `transcodeToHls` call, given the ratios the codec reports:
each report clamped by line 775, then the single final `onProgress?.(1)`
of line 843, issued after all artifacts are collected. -/
def progressCalls (ratios : List ℚ) : List ℚ :=
  ratios.map clampRatio ++ [1]

/-- The insertion-ordered key list of the returned `files` record:
`referenced = parseHlsFiles(variantText)` then
`referenced.add(variantName); referenced.add(initName)` and, after the
master playlist is written, `referenced.add(masterName)` (lines 821–834). -/
def bundleFileList (variantText : String) : List String :=
  addUnique (addUnique (addUnique (parseHlsFilesList variantText) variantName) initName) masterName

/-- The master playlist text composed on line 826:
`buildMasterPlaylist({variant: variantName, width, height, bandwidth: (vBitrate + aBitrate) * 1000})`. -/
def masterContent : String :=
  buildMasterPlaylist variantName hlsWidth hlsHeight approxBitrate

/-- The `HlsOutput` value returned by `transcodeToHls` (file contents are
external bytes; the bundle is represented by its key set). -/
structure HlsOutput where
  files : List String
  masterName : String
  variantName : String
  width : Nat
  height : Nat
  label : String
  approxBitrate : Nat
deriving DecidableEq, Repr

/-- The result of one successful `transcodeToHls` call whose codec run
produced the variant playlist text `variantText` (lines 845–851). -/
def transcodeToHls (variantText : String) : HlsOutput :=
  { files := bundleFileList variantText
    masterName := masterName
    variantName := variantName
    width := hlsWidth
    height := hlsHeight
    label := "720p"
    approxBitrate := approxBitrate }

/-- Modelled from the spec: the output dimensions of the scaling filter
`scale=w=1280:h=-2:force_original_aspect_ratio=decrease` executed by the
external ffmpeg runtime, which is not part of `src/`. Per §4.1 of the
spec, the policy is "re-scale so the output width is exactly 1280 px,
height auto-computed preserving aspect ratio and rounded to an even
number of pixels". -/
def scaleFilterOutput (iw ih : Nat) : Nat × Nat :=
  (1280, (2 * round (((ih : ℚ) * 1280 / iw) / 2)).toNat)

/-! ## Job Ledger (`transcoding_jobs`) and the `startTranscode` pipeline
(`src/src/components/TranscodeButton.tsx`) -/

inductive JobStatus where
  | pending
  | processing
  | completed
  | failed
deriving DecidableEq, Repr

/-- One entry of `resolution_variants` (the object built on lines 106–113). -/
structure RenditionVariant where
  resolution : String
  width : Nat
  height : Nat
  bitrate : Nat
  url : String
  size_bytes : Nat
deriving DecidableEq, Repr

/-- One row of the `transcoding_jobs` table (columns the core touches). -/
structure Job where
  id : String
  status : JobStatus
  progress : Nat
  input_file_url : Option String
  output_url : Option String
  resolution_variants : Option (List RenditionVariant)
  total_size_bytes : Option Nat
  error_message : Option String
deriving DecidableEq, Repr

/-- The four update payloads `startTranscode` sends with
`.update(...).eq("id", jobId)`. -/
inductive LedgerWrite where
  | setProcessing (progress : Nat)
  | setProgress (progress : Nat)
  | setCompleted (output_url : String) (variants : List RenditionVariant) (total : Nat)
  | setFailed (msg : String)
deriving DecidableEq, Repr

/-- Effect of one update payload on a row it matches. Each payload only
overwrites the columns it names. -/
def applyWrite (j : Job) : LedgerWrite → Job
  | .setProcessing p => { j with status := .processing, progress := p }
  | .setProgress p => { j with progress := p }
  | .setCompleted u v t =>
    { j with status := .completed, progress := 100, output_url := some u,
             resolution_variants := some v, total_size_bytes := some t }
  | .setFailed m => { j with status := .failed, error_message := some m }

/-- `supabase.from("transcoding_jobs").update(w).eq("id", jobId)`:
apply the payload to every row whose `id` equals `jobId`. -/
def ledgerUpdate (ledger : List Job) (jobId : String) (w : LedgerWrite) : List Job :=
  ledger.map fun r => if r.id = jobId then applyWrite r w else r

/-- Apply a sequence of writes to one row. -/
def applyWrites (j : Job) (ws : List LedgerWrite) : Job :=
  ws.foldl applyWrite j

/-- Line 55: `Math.max(1, Math.min(99, Math.floor(ratio * 100)))`. -/
def progressPercent (ratio : ℚ) : Nat :=
  (max 1 (min 99 ⌊ratio * 100⌋)).toNat

/-- External outcomes one `startTranscode` invocation observes:
the authenticated user, the ledger read of the job row, the source
download, the encode (failure message, or the variant playlist text the
codec produced), the progress ratios the codec reports, the scratch file
sizes, and the per-path storage upload outcome (`none` = success). -/
structure TranscodeEnv where
  user : Option String
  jobRead : Except String (Option String)
  downloadOk : Bool
  ratios : List ℚ
  encode : Except String String
  fileSize : String → Nat
  uploadError : String → Option String

/-- First upload rejection surfaced by `await Promise.all(uploads)`,
taken in bundle order. -/
def firstUploadError (err : String → Option String) (files : List String) : Option String :=
  files.findSome? err

/-- `getPublicUrl(path).data.publicUrl`: pure URL construction. -/
def publicUrl (base name : String) : String :=
  base ++ name

/-- The sequence of ledger writes one `startTranscode` invocation issues
(`TranscodeButton.tsx`, lines 24–137), as a function of the observed
external outcomes. Every exception, wherever raised, lands in the
`catch` block of lines 123–133, which issues the `failed` write. -/
def startTranscodeWrites (env : TranscodeEnv) (base : String) : List LedgerWrite :=
  match env.user with
  | none => [.setFailed "Not authenticated"]
  | some _ =>
    match env.jobRead with
    | .error e => [.setFailed e]
    | .ok none => [.setFailed "Missing input file URL"]
    | .ok (some _) =>
      .setProcessing 1 ::
        if env.downloadOk = false then [.setFailed "Failed to download source file"]
        else
          (env.ratios.map fun r => .setProgress (progressPercent (clampRatio r))) ++
            match env.encode with
            | .error e => [.setFailed e]
            | .ok variantText =>
              LedgerWrite.setProgress (progressPercent 1) ::
                let hls := transcodeToHls variantText
                match firstUploadError env.uploadError hls.files with
                | some e => [.setFailed e]
                | none =>
                  let totalSize := (hls.files.map env.fileSize).sum
                  [.setCompleted (publicUrl base hls.masterName)
                    [{ resolution := hls.label, width := hls.width, height := hls.height,
                       bitrate := hls.approxBitrate, url := publicUrl base hls.variantName,
                       size_bytes := totalSize }]
                    totalSize]

/-! ## Concrete fixtures used by witnesses and counterexamples -/

/-- A freshly created job row (`status = pending`). -/
def jobPending : Job :=
  { id := "j1", status := .pending, progress := 0,
    input_file_url := some "https://in/src.mp4", output_url := none,
    resolution_variants := none, total_size_bytes := none, error_message := none }

/-- The same row after another caller has already started it. -/
def jobProcessing : Job :=
  { jobPending with status := .processing, progress := 50 }

/-- The same row after a completed run. -/
def jobCompleted : Job :=
  { jobPending with
    status := .completed
    progress := 100
    output_url := some "https://out/master.m3u8" }

/-- An environment in which every external step succeeds. -/
def envOk : TranscodeEnv :=
  { user := some "u", jobRead := .ok (some "https://in/src.mp4"),
    downloadOk := true, ratios := [], encode := .ok "",
    fileSize := fun _ => 0, uploadError := fun _ => none }

/-- The authentication step fails (an error before the job is marked
`processing`). -/
def envAuthFail : TranscodeEnv :=
  { envOk with user := none }

/-- The ledger read of the job row fails (an error before the job is
marked `processing`). -/
def envReadFail : TranscodeEnv :=
  { envOk with jobRead := .error "Job read failed" }

/-- Persisting one artifact (the master manifest) to storage fails. -/
def envUploadFail : TranscodeEnv :=
  { envOk with uploadError := fun f => if f = masterName then some "Storage upload failed" else none }

end IngestStreamForge

namespace IngestStreamForge

/-! ## General lemmas about the embedded operations -/

lemma mem_addUnique {l : List String} {x y : String} :
    x ∈ addUnique l y ↔ x ∈ l ∨ x = y := by
  unfold addUnique
  split
  · rename_i hy
    constructor
    · exact Or.inl
    · rintro (h | rfl)
      · exact h
      · exact hy
  · simp [List.mem_append]

lemma mem_addUnique_of_mem {l : List String} {x : String} (y : String) (h : x ∈ l) :
    x ∈ addUnique l y :=
  mem_addUnique.mpr (Or.inl h)

lemma applyWrites_append (j : Job) (ws1 ws2 : List LedgerWrite) :
    applyWrites j (ws1 ++ ws2) = applyWrites (applyWrites j ws1) ws2 :=
  List.foldl_append ..

lemma applyWrites_status_failed (j : Job) (ws : List LedgerWrite) (m : String) :
    (applyWrites j (ws ++ [.setFailed m])).status = .failed := by
  rw [applyWrites_append]; rfl

lemma applyWrites_status_completed (j : Job) (ws : List LedgerWrite)
    (u : String) (v : List RenditionVariant) (t : Nat) :
    (applyWrites j (ws ++ [.setCompleted u v t])).status = .completed := by
  rw [applyWrites_append]; rfl

lemma applyWrites_rv_of_no_completed (j : Job) (ws : List LedgerWrite)
    (h : ∀ w ∈ ws, ∀ u v t, w ≠ .setCompleted u v t) :
    (applyWrites j ws).resolution_variants = j.resolution_variants := by
  induction ws generalizing j with
  | nil => rfl
  | cons w ws ih =>
    have hw := h w (List.mem_cons_self ..)
    have hws : ∀ w ∈ ws, ∀ u v t, w ≠ LedgerWrite.setCompleted u v t :=
      fun w hmem => h w (List.mem_cons_of_mem _ hmem)
    have step : applyWrites j (w :: ws) = applyWrites (applyWrite j w) ws := rfl
    rw [step, ih (applyWrite j w) hws]
    cases w with
    | setProcessing p => rfl
    | setProgress p => rfl
    | setCompleted u v t => exact absurd rfl (hw u v t)
    | setFailed m => rfl

/-! ## Claim theorems -/

/-- C1, counterexample. The claim says a `pending → processing`
transition is performed only if the persisted status is exactly `pending`,
with the loser of a concurrent race observing a `LedgerConflict`. On a row
whose persisted status is already `processing` (another caller won), a
second `startTranscode` invocation with all pre-steps succeeding still
issues the unconditional `{status: processing}` update filtered only by
job id as its first ledger write, that write succeeds against the
`processing` row, and the second invocation runs on to `completed`: both
racers succeed and no conflict is ever surfaced. -/
theorem processingWritePerformedWhenNotPending :
    jobProcessing.status = .processing ∧ jobProcessing.status ≠ .pending ∧
    (startTranscodeWrites envOk "base/").head? = some (.setProcessing 1) ∧
    (applyWrite jobProcessing (.setProcessing 1)).status = .processing ∧
    (applyWrites jobProcessing (startTranscodeWrites envOk "base/")).status = .completed :=
  ⟨rfl, by decide, rfl, rfl, rfl⟩

/-- C1, amended. The `pending → processing` update is unconditional:
whenever the pre-steps succeed (a user is authenticated and the job row is
read with a non-null `input_file_url`), the pipeline issues the
`{status: "processing", progress: 1}` write filtered only by job id as its
first ledger write — without examining the persisted status — and applying
that write to a row in any current status sets the status to `processing`.
There is no compare-and-swap precondition and no `LedgerConflict`. -/
theorem processingWriteUnconditional (env : TranscodeEnv) (base uid url : String)
    (hu : env.user = some uid) (hj : env.jobRead = .ok (some url)) :
    (∃ rest, startTranscodeWrites env base = .setProcessing 1 :: rest) ∧
    ∀ j : Job, (applyWrite j (.setProcessing 1)).status = .processing ∧
      (applyWrite j (.setProcessing 1)).id = j.id := by
  constructor
  · unfold startTranscodeWrites
    rw [hu, hj]
    exact ⟨_, rfl⟩
  · exact fun j => ⟨rfl, rfl⟩

/-- C1, witness. -/
theorem processingWriteUnconditional_witness :
    (∃ rest, startTranscodeWrites envOk "base/" = .setProcessing 1 :: rest) ∧
    (applyWrite jobCompleted (.setProcessing 1)).status = .processing :=
  ⟨(processingWriteUnconditional envOk "base/" "u" "https://in/src.mp4" rfl rfl).1,
    ((processingWriteUnconditional envOk "base/" "u" "https://in/src.mp4" rfl rfl).2
      jobCompleted).1⟩

/-- C2, counterexample. The claim says a late progress write arriving
after completion leaves the ledger showing `status=completed,
progress=100`. The progress-callback write for a late 45% update
(`Math.max(1, Math.min(99, Math.floor(0.45 * 100))) = 45`) applied to a
ledger holding the completed row with `progress = 100` overwrites
`progress` to `45`: the late write is applied, not rejected. -/
theorem lateProgressWriteChangesCompletedProgress :
    jobCompleted.status = .completed ∧ jobCompleted.progress = 100 ∧
    ledgerUpdate [jobCompleted] "j1" (.setProgress (progressPercent (clampRatio (9/20)))) =
      [{ jobCompleted with progress := 45 }] ∧ (45 : Nat) ≠ 100 := by
  have h45 : progressPercent (clampRatio (9/20)) = 45 := by
    norm_num [progressPercent, clampRatio, min_def]
    decide
  refine ⟨rfl, rfl, ?_, by decide⟩
  rw [ledgerUpdate, h45]
  rfl

/-- C2, amended. No terminal-state guard exists: the progress-callback
update filters only on the job id, so a late progress write to a row that
is already `completed` is applied — the row keeps its terminal status
(the payload touches only `progress`) but its `progress` column is
overwritten with the late value. -/
theorem lateProgressWriteOverwritesTerminalRow (ledger : List Job) (jobId : String)
    (r : ℚ) (row : Job) (hmem : row ∈ ledger) (hid : row.id = jobId) :
    { row with progress := progressPercent (clampRatio r) } ∈
      ledgerUpdate ledger jobId (.setProgress (progressPercent (clampRatio r))) ∧
    ({ row with progress := progressPercent (clampRatio r) } : Job).status = row.status := by
  refine ⟨?_, rfl⟩
  have hfun : { row with progress := progressPercent (clampRatio r) } =
      (fun s => if s.id = jobId
        then applyWrite s (.setProgress (progressPercent (clampRatio r))) else s) row := by
    simp only [if_pos hid]
    rfl
  rw [ledgerUpdate, hfun]
  exact List.mem_map_of_mem _ hmem

/-- C2, witness. -/
theorem lateProgressWriteOverwritesTerminalRow_witness :
    { jobCompleted with progress := progressPercent (clampRatio (9/20)) } ∈
      ledgerUpdate [jobCompleted] "j1" (.setProgress (progressPercent (clampRatio (9/20)))) ∧
    ({ jobCompleted with progress := progressPercent (clampRatio (9/20)) } : Job).status =
      jobCompleted.status :=
  lateProgressWriteOverwritesTerminalRow [jobCompleted] "j1" (9/20) jobCompleted
    (List.mem_singleton.mpr rfl) rfl

/-- C3. For every successful `transcode` invocation, the master
manifest composed in that call references exactly the variant playlist of
the same call (`parseHlsFiles` of the master text is the singleton of the
variant playlist name), and every file `parseHlsFiles` extracts from the
variant playlist text is a key of the returned bundle; the bundle moreover
contains the variant playlist, the init segment and the master manifest
themselves. -/
theorem masterReferencesVariantAndBundleClosed (variantText : String) :
    parseHlsFiles masterContent = {variantName} ∧
    (transcodeToHls variantText).masterName = masterName ∧
    (transcodeToHls variantText).variantName = variantName ∧
    (∀ f, f ∈ parseHlsFiles variantText → f ∈ (transcodeToHls variantText).files) ∧
    variantName ∈ (transcodeToHls variantText).files ∧
    initName ∈ (transcodeToHls variantText).files ∧
    masterName ∈ (transcodeToHls variantText).files := by
  refine ⟨by decide, rfl, rfl, ?_, ?_, ?_, ?_⟩
  · intro f hf
    have hf2 : f ∈ parseHlsFilesList variantText := List.mem_toFinset.mp hf
    exact mem_addUnique_of_mem _ (mem_addUnique_of_mem _ (mem_addUnique_of_mem _ hf2))
  · exact mem_addUnique_of_mem _ (mem_addUnique_of_mem _ (mem_addUnique.mpr (Or.inr rfl)))
  · exact mem_addUnique_of_mem _ (mem_addUnique.mpr (Or.inr rfl))
  · exact mem_addUnique.mpr (Or.inr rfl)

/-- C3, witness. -/
theorem masterReferencesVariantAndBundleClosed_witness :
    parseHlsFiles masterContent = {variantName} ∧
    "seg0.m4s" ∈ (transcodeToHls "#EXTM3U\nseg0.m4s\n").files :=
  ⟨(masterReferencesVariantAndBundleClosed "#EXTM3U\nseg0.m4s\n").1,
    (masterReferencesVariantAndBundleClosed "#EXTM3U\nseg0.m4s\n").2.2.2.1 "seg0.m4s"
      (by decide)⟩

/-- C4. For every successful `transcodeToHls` call, whatever ratios
the codec reports, the sequence of values passed to the progress callback
ends with exactly one invocation at exactly `1`, and every invocation
before the final one is at most `0.99` (line 775 clamps every codec
report to `min 0.99 ·`; line 843 then fires the single final `1`). -/
theorem progressCallsEndWithExactlyOne (ratios : List ℚ) :
    (progressCalls ratios).getLast? = some 1 ∧
    (progressCalls ratios).count 1 = 1 ∧
    ∀ x ∈ (progressCalls ratios).dropLast, x ≤ 99/100 := by
  have hle : ∀ x ∈ ratios.map clampRatio, x ≤ 99/100 := by
    intro x hx
    obtain ⟨r, _, rfl⟩ := List.mem_map.mp hx
    exact min_le_left _ _
  refine ⟨?_, ?_, ?_⟩
  · simp [progressCalls]
  · have hnot : (1 : ℚ) ∉ ratios.map clampRatio := by
      intro hmem
      have := hle 1 hmem
      norm_num at this
    rw [progressCalls, List.count_append, List.count_eq_zero.mpr hnot]
    simp
  · intro x hx
    rw [progressCalls, List.dropLast_concat] at hx
    exact hle x hx

/-- C4, witness. -/
theorem progressCallsEndWithExactlyOne_witness :
    (progressCalls [1/2, 3]).getLast? = some 1 ∧
    (progressCalls [1/2, 3]).count 1 = 1 ∧
    ∀ x ∈ (progressCalls [1/2, 3]).dropLast, x ≤ 99/100 :=
  progressCallsEndWithExactlyOne [1/2, 3]

/-- C7. The code is inconsistent with the scaling filter it runs: the
filter `scale=w=1280:h=-2:force_original_aspect_ratio=decrease` preserves
the input aspect ratio (for a 640×480 input it produces a 1280×960
output), but the Rendition Descriptor returned by `transcodeToHls`
hard-codes `width=1280, height=720, label="720p"` for every input, so for
a 640×480 input the descriptor's height (720) does not match the height
the filter actually produced (960). -/
theorem descriptorHeightMismatchesScaleFilter :
    scaleFilterOutput 640 480 = (1280, 960) ∧
    (∀ variantText,
      ((transcodeToHls variantText).width, (transcodeToHls variantText).height,
        (transcodeToHls variantText).label) = (1280, 720, "720p")) ∧
    (960 : Nat) ≠ 720 := by
  refine ⟨?_, fun _ => rfl, by decide⟩
  norm_num [scaleFilterOutput, round_eq]
  decide

/-- C9, counterexample. The claim says an error raised before the job
enters `processing` (for example a failed ledger read) aborts the pipeline
without writing `error_message`. When the ledger read of the job row
fails, the single catch handler still issues the
`{status: "failed", error_message: ...}` write, so the row — which never
entered `processing` — ends with `status = failed` and `error_message`
set. -/
theorem preProcessingReadErrorWritesErrorMessage :
    startTranscodeWrites envReadFail "base/" = [.setFailed "Job read failed"] ∧
    (applyWrites jobPending (startTranscodeWrites envReadFail "base/")).error_message =
      some "Job read failed" ∧
    (applyWrites jobPending (startTranscodeWrites envReadFail "base/")).status = .failed ∧
    jobPending.error_message = none :=
  ⟨rfl, rfl, rfl, rfl⟩

/-- C9, amended. Every error in `startTranscode`, including the ones
raised before the job is marked `processing` (missing authenticated user,
failed ledger read), is caught by the single catch handler of lines
123–133, which issues a write setting `status = failed` and
`error_message`; there is no pre-`processing` abort path that leaves
`error_message` untouched, and no `LedgerConflict` exists. -/
theorem preProcessingErrorsWriteErrorMessage (env : TranscodeEnv) (base : String) (j : Job) :
    (env.user = none →
      applyWrites j (startTranscodeWrites env base) =
        applyWrite j (.setFailed "Not authenticated")) ∧
    (∀ u e, env.user = some u → env.jobRead = .error e →
      applyWrites j (startTranscodeWrites env base) = applyWrite j (.setFailed e)) ∧
    ∀ m, (applyWrite j (.setFailed m)).error_message = some m ∧
      (applyWrite j (.setFailed m)).status = .failed := by
  refine ⟨?_, ?_, fun m => ⟨rfl, rfl⟩⟩
  · intro hu
    unfold startTranscodeWrites
    rw [hu]
    rfl
  · intro u e hu he
    unfold startTranscodeWrites
    rw [hu, he]
    rfl

/-- C9, witness. -/
theorem preProcessingErrorsWriteErrorMessage_witness :
    applyWrites jobPending (startTranscodeWrites envAuthFail "base/") =
      applyWrite jobPending (.setFailed "Not authenticated") ∧
    (applyWrite jobPending (.setFailed "Not authenticated")).error_message =
      some "Not authenticated" :=
  ⟨(preProcessingErrorsWriteErrorMessage envAuthFail "base/" jobPending).1 rfl,
    ((preProcessingErrorsWriteErrorMessage envAuthFail "base/" jobPending).2.2
      "Not authenticated").1⟩

/-- C10. On an input playlist containing a line that consists only of
whitespace (here `" "`), `parseHlsFiles` includes the empty string in the
returned set: the line is neither empty nor starts with `#`, so the loop
trims it to `""` and adds it instead of ignoring it as blank. -/
theorem whitespaceLineYieldsEmptyString :
    " " ≠ "" ∧ ¬ strStartsWith " " "#" ∧ strTrim " " = "" ∧
    splitLines "#EXTM3U\n \nseg0.m4s\n" = ["#EXTM3U", " ", "seg0.m4s", ""] ∧
    "" ∈ parseHlsFiles "#EXTM3U\n \nseg0.m4s\n" ∧
    parseHlsFiles "#EXTM3U\n \nseg0.m4s\n" = {"", "seg0.m4s"} := by
  decide

/-- C8. When the pre-steps and the encode succeed, the job reaches
`completed` only if every artifact in the bundle uploaded successfully: if
persisting any one artifact fails, the final row is `failed` and its
`resolution_variants` column is untouched (never `completed` with a
partial variant list); if every artifact persists, the final row is
`completed`. -/
theorem completedOnlyAfterAllUploads (env : TranscodeEnv) (base uid url vt : String)
    (j : Job) (hu : env.user = some uid) (hj : env.jobRead = .ok (some url))
    (hd : env.downloadOk = true) (he : env.encode = .ok vt) :
    ((∃ f ∈ (transcodeToHls vt).files, (env.uploadError f).isSome) →
      (applyWrites j (startTranscodeWrites env base)).status = .failed ∧
      (applyWrites j (startTranscodeWrites env base)).resolution_variants =
        j.resolution_variants) ∧
    ((∀ f ∈ (transcodeToHls vt).files, env.uploadError f = none) →
      (applyWrites j (startTranscodeWrites env base)).status = .completed) ∧
    ((applyWrites j (startTranscodeWrites env base)).status = .completed →
      ∀ f ∈ (transcodeToHls vt).files, env.uploadError f = none) := by
  have htrace : startTranscodeWrites env base =
      .setProcessing 1 ::
        ((env.ratios.map fun r => .setProgress (progressPercent (clampRatio r))) ++
          LedgerWrite.setProgress (progressPercent 1) ::
            (match firstUploadError env.uploadError (transcodeToHls vt).files with
              | some e => [.setFailed e]
              | none =>
                [.setCompleted (publicUrl base (transcodeToHls vt).masterName)
                  [{ resolution := (transcodeToHls vt).label,
                     width := (transcodeToHls vt).width,
                     height := (transcodeToHls vt).height,
                     bitrate := (transcodeToHls vt).approxBitrate,
                     url := publicUrl base (transcodeToHls vt).variantName,
                     size_bytes := ((transcodeToHls vt).files.map env.fileSize).sum }]
                  (((transcodeToHls vt).files.map env.fileSize).sum)])) := by
    unfold startTranscodeWrites
    rw [hu, hj, hd, he]
    rfl
  have hfail : ∀ e, firstUploadError env.uploadError (transcodeToHls vt).files = some e →
      (applyWrites j (startTranscodeWrites env base)).status = .failed ∧
      (applyWrites j (startTranscodeWrites env base)).resolution_variants =
        j.resolution_variants := by
    intro e hsome
    rw [htrace, hsome]
    constructor
    · have hsplit :
          LedgerWrite.setProcessing 1 ::
            ((env.ratios.map fun r => .setProgress (progressPercent (clampRatio r))) ++
              LedgerWrite.setProgress (progressPercent 1) :: [LedgerWrite.setFailed e]) =
          (LedgerWrite.setProcessing 1 ::
            ((env.ratios.map fun r => .setProgress (progressPercent (clampRatio r))) ++
              [LedgerWrite.setProgress (progressPercent 1)])) ++ [LedgerWrite.setFailed e] := by
        simp
      rw [hsplit]
      exact applyWrites_status_failed ..
    · apply applyWrites_rv_of_no_completed
      intro w hw u v t
      rcases List.mem_cons.mp hw with rfl | hw2
      · exact fun hcontra => LedgerWrite.noConfusion hcontra
      rcases List.mem_append.mp hw2 with hw3 | hw4
      · obtain ⟨r, _, rfl⟩ := List.mem_map.mp hw3
        exact fun hcontra => LedgerWrite.noConfusion hcontra
      rcases List.mem_cons.mp hw4 with rfl | hw5
      · exact fun hcontra => LedgerWrite.noConfusion hcontra
      · rw [List.mem_singleton.mp hw5]
        exact fun hcontra => LedgerWrite.noConfusion hcontra
  have hok : firstUploadError env.uploadError (transcodeToHls vt).files = none →
      (applyWrites j (startTranscodeWrites env base)).status = .completed := by
    intro hnone
    rw [htrace, hnone]
    have hsplit :
        LedgerWrite.setProcessing 1 ::
          ((env.ratios.map fun r => .setProgress (progressPercent (clampRatio r))) ++
            LedgerWrite.setProgress (progressPercent 1) ::
              [LedgerWrite.setCompleted (publicUrl base (transcodeToHls vt).masterName)
                [{ resolution := (transcodeToHls vt).label,
                   width := (transcodeToHls vt).width,
                   height := (transcodeToHls vt).height,
                   bitrate := (transcodeToHls vt).approxBitrate,
                   url := publicUrl base (transcodeToHls vt).variantName,
                   size_bytes := ((transcodeToHls vt).files.map env.fileSize).sum }]
                (((transcodeToHls vt).files.map env.fileSize).sum)]) =
        (LedgerWrite.setProcessing 1 ::
          ((env.ratios.map fun r => .setProgress (progressPercent (clampRatio r))) ++
            [LedgerWrite.setProgress (progressPercent 1)])) ++
          [LedgerWrite.setCompleted (publicUrl base (transcodeToHls vt).masterName)
            [{ resolution := (transcodeToHls vt).label,
               width := (transcodeToHls vt).width,
               height := (transcodeToHls vt).height,
               bitrate := (transcodeToHls vt).approxBitrate,
               url := publicUrl base (transcodeToHls vt).variantName,
               size_bytes := ((transcodeToHls vt).files.map env.fileSize).sum }]
            (((transcodeToHls vt).files.map env.fileSize).sum)] := by
      simp
    rw [hsplit]
    exact applyWrites_status_completed ..
  refine ⟨?_, ?_, ?_⟩
  · rintro ⟨f, hf, hsome⟩
    cases hcase : firstUploadError env.uploadError (transcodeToHls vt).files with
    | none =>
      rw [firstUploadError, List.findSome?_eq_none_iff] at hcase
      rw [hcase f hf] at hsome
      exact absurd hsome (by decide)
    | some e => exact hfail e hcase
  · intro hall
    exact hok (by rw [firstUploadError, List.findSome?_eq_none_iff]; exact hall)
  · intro hcompleted f hf
    by_contra hne
    have hsome : (env.uploadError f).isSome := Option.ne_none_iff_isSome.mp hne
    have hfailed := (hfail _ (show firstUploadError env.uploadError (transcodeToHls vt).files =
        some ((firstUploadError env.uploadError (transcodeToHls vt).files).getD "") from by
      cases hcase : firstUploadError env.uploadError (transcodeToHls vt).files with
      | none =>
        rw [firstUploadError, List.findSome?_eq_none_iff] at hcase
        rw [hcase f hf] at hsome
        exact absurd hsome (by decide)
      | some e => rfl)).1
    rw [hcompleted] at hfailed
    exact JobStatus.noConfusion hfailed

/-- C8, witness. -/
theorem completedOnlyAfterAllUploads_witness :
    ((applyWrites jobPending (startTranscodeWrites envUploadFail "base/")).status = .failed ∧
      (applyWrites jobPending (startTranscodeWrites envUploadFail "base/")).resolution_variants =
        jobPending.resolution_variants) ∧
    (applyWrites jobPending (startTranscodeWrites envOk "base/")).status = .completed :=
  ⟨(completedOnlyAfterAllUploads envUploadFail "base/" "u" "https://in/src.mp4" "" jobPending
      rfl rfl rfl rfl).1 ⟨masterName, by decide, by decide⟩,
    (completedOnlyAfterAllUploads envOk "base/" "u" "https://in/src.mp4" "" jobPending
      rfl rfl rfl rfl).2.1 (by decide)⟩


/-! ## String lemmas for the Manifest Composer theorems -/

lemma str_ext {s t : String} (h : s.data = t.data) : s = t :=
  congrArg String.mk h

lemma mk_data (s : String) : String.mk s.data = s := by
  cases s
  rfl

lemma forall_data_append {P : Char → Prop} {s t : String}
    (hs : ∀ c ∈ s.data, P c) (ht : ∀ c ∈ t.data, P c) :
    ∀ c ∈ (s ++ t).data, P c := by
  intro c hc
  rw [String.data_append] at hc
  rcases List.mem_append.mp hc with h | h
  · exact hs c h
  · exact ht c h

lemma digitChar_ne (m : Nat) : Nat.digitChar m ≠ '\n' ∧ Nat.digitChar m ≠ '\r' := by
  match m with
  | 0 => decide
  | 1 => decide
  | 2 => decide
  | 3 => decide
  | 4 => decide
  | 5 => decide
  | 6 => decide
  | 7 => decide
  | 8 => decide
  | 9 => decide
  | 10 => decide
  | 11 => decide
  | 12 => decide
  | 13 => decide
  | 14 => decide
  | 15 => decide
  | n + 16 =>
    have h : Nat.digitChar (n + 16) = '*' := by
      unfold Nat.digitChar
      repeat rw [if_neg (by omega)]
    rw [h]
    decide

lemma toDigitsCore_ne (b : Nat) (fuel : Nat) :
    ∀ (n : Nat) (acc : List Char), (∀ c ∈ acc, c ≠ '\n' ∧ c ≠ '\r') →
      ∀ c ∈ Nat.toDigitsCore b fuel n acc, c ≠ '\n' ∧ c ≠ '\r' := by
  induction fuel with
  | zero =>
    intro n acc hacc c hc
    rw [Nat.toDigitsCore] at hc
    exact hacc c hc
  | succ fuel ih =>
    intro n acc hacc c hc
    rw [Nat.toDigitsCore] at hc
    have hcons : ∀ c ∈ Nat.digitChar (n % b) :: acc, c ≠ '\n' ∧ c ≠ '\r' := by
      intro c hc2
      rcases List.mem_cons.mp hc2 with rfl | hc3
      · exact digitChar_ne _
      · exact hacc c hc3
    by_cases h : n / b = 0
    · rw [if_pos h] at hc
      exact hcons c hc
    · rw [if_neg h] at hc
      exact ih (n / b) _ hcons c hc

lemma repr_ne (n : Nat) : ∀ c ∈ (Nat.repr n).data, c ≠ '\n' ∧ c ≠ '\r' := by
  intro c hc
  have hmem : c ∈ Nat.toDigitsCore 10 (n + 1) n [] := by
    simpa [Nat.repr, Nat.toDigits, List.asString] using hc
  exact toDigitsCore_ne 10 (n + 1) n [] (by simp) c hmem

lemma splitLinesAux_append (l1 l2 : List Char)
    (h1 : ∀ c ∈ l1, c ≠ '\n' ∧ c ≠ '\r') :
    ∀ acc, (∀ c ∈ acc, c ≠ '\r') →
      splitLinesAux (l1 ++ '\n' :: l2) acc =
        String.mk (acc.reverse ++ l1) :: splitLinesAux l2 [] := by
  induction l1 with
  | nil =>
    intro acc h2
    rw [List.nil_append, splitLinesAux, if_pos rfl]
    have hacc : (if acc.head? = some '\r' then acc.tail else acc) = acc := by
      cases acc with
      | nil => simp
      | cons a as =>
        have := h2 a (List.mem_cons_self ..)
        simp [this]
    rw [hacc]
    simp
  | cons c cs ih =>
    intro acc h2
    have hc := h1 c (List.mem_cons_self ..)
    rw [List.cons_append, splitLinesAux, if_neg hc.1]
    rw [ih (fun d hd => h1 d (List.mem_cons_of_mem _ hd)) (c :: acc)
      (by
        intro d hd
        rcases List.mem_cons.mp hd with rfl | hd2
        · exact hc.2
        · exact h2 d hd2)]
    simp

lemma splitLines_cons (s rest : String) (hs : ∀ c ∈ s.data, c ≠ '\n' ∧ c ≠ '\r') :
    splitLinesAux (s.data ++ '\n' :: rest.data) [] = s :: splitLines rest := by
  rw [splitLinesAux_append s.data rest.data hs [] (by simp)]
  rw [List.reverse_nil, List.nil_append, mk_data]
  rfl

lemma isPrefixOf_append_left {p s : List Char} (t : List Char)
    (h : p.isPrefixOf s = true) : p.isPrefixOf (s ++ t) = true := by
  induction p generalizing s with
  | nil => simp [List.isPrefixOf]
  | cons a as ih =>
    cases s with
    | nil => simp [List.isPrefixOf] at h
    | cons b bs =>
      simp only [List.isPrefixOf, List.cons_append, Bool.and_eq_true, beq_iff_eq] at h ⊢
      exact ⟨h.1, ih h.2⟩

lemma strStartsWith_hash {l : String} (h : strStartsWith l "#EXT-X-MAP" = true) :
    strStartsWith l "#" = true := by
  unfold strStartsWith at h ⊢
  have hd : ("#EXT-X-MAP" : String).data = '#' :: "EXT-X-MAP".data := rfl
  rw [hd] at h
  cases hl : l.data with
  | nil => rw [hl] at h; simp [List.isPrefixOf] at h
  | cons c cs =>
    rw [hl] at h
    simp only [List.isPrefixOf, Bool.and_eq_true, beq_iff_eq] at h
    show (['#'] : List Char).isPrefixOf (c :: cs) = true
    simp [List.isPrefixOf]
    exact h.1

lemma splitLinesAux_cons (s : String) (rest : List Char)
    (hs : ∀ c ∈ s.data, c ≠ '\n' ∧ c ≠ '\r') :
    splitLinesAux (s.data ++ '\n' :: rest) [] = s :: splitLinesAux rest [] := by
  rw [splitLinesAux_append s.data rest hs [] (by simp)]
  rw [List.reverse_nil, List.nil_append, mk_data]

lemma streamInfLine_clean (w h B : Nat) :
    ∀ c ∈ (streamInfLine w h B).data, c ≠ '\n' ∧ c ≠ '\r' := by
  unfold streamInfLine
  repeat' apply forall_data_append
  all_goals first
  | exact repr_ne _
  | decide

lemma splitLines_build (v : String) (w h B : Nat)
    (hv : ∀ c ∈ v.data, c ≠ '\n' ∧ c ≠ '\r') :
    splitLines (buildMasterPlaylist v w h B) =
      ["#EXTM3U", "#EXT-X-VERSION:7", streamInfLine w h B, v, ""] := by
  unfold splitLines buildMasterPlaylist
  have hn : ("\n" : String).data = ['\n'] := rfl
  have hdata :
      ("#EXTM3U" ++ "\n" ++ "#EXT-X-VERSION:7" ++ "\n" ++ streamInfLine w h B ++ "\n" ++
          v ++ "\n").data =
        "#EXTM3U".data ++ '\n' ::
          ("#EXT-X-VERSION:7".data ++ '\n' ::
            ((streamInfLine w h B).data ++ '\n' :: (v.data ++ '\n' :: []))) := by
    simp [String.data_append, hn, List.append_assoc]
  rw [hdata]
  rw [splitLinesAux_cons "#EXTM3U" _ (by decide)]
  rw [splitLinesAux_cons "#EXT-X-VERSION:7" _ (by decide)]
  rw [splitLinesAux_cons (streamInfLine w h B) _ (streamInfLine_clean w h B)]
  have hv2 : v.data ++ '\n' :: [] = v.data ++ '\n' :: (("" : String).data) := rfl
  rw [hv2, splitLinesAux_cons v _ hv]
  rfl

/-- C5, counterexample. The claim quantifies over every variant name
`v`; for the variant name `"#EXT-X-STREAM-INF"` the produced text contains
two lines starting with `#EXT-X-STREAM-INF`, not exactly one. -/
theorem masterPlaylistStreamInfNotUnique :
    ((splitLines (buildMasterPlaylist "#EXT-X-STREAM-INF" 1280 720 2128000)).filter
      (fun l => strStartsWith l "#EXT-X-STREAM-INF")).length = 2 := by
  decide

/-- C5, amended. For every variant name `v` that contains no newline
or carriage-return character and does not itself start with
`#EXT-X-STREAM-INF` (every real playlist filename qualifies), and all
`w`, `h`, `B`: the produced text consists of exactly the lines
format header, version tag, stream-info tag, variant name, in that fixed
order, followed by a trailing newline; exactly one line starts with
`#EXT-X-STREAM-INF`; and that line carries an `AVERAGE-BANDWIDTH`
attribute whose value is `Nat.repr (B * 85 / 100)`, the decimal numeral
of `⌊0.85 * B⌋`. -/
theorem masterPlaylistShape (v : String) (w h B : Nat)
    (hv : ∀ c ∈ v.data, c ≠ '\n' ∧ c ≠ '\r')
    (hv2 : ¬ strStartsWith v "#EXT-X-STREAM-INF") :
    splitLines (buildMasterPlaylist v w h B) =
      ["#EXTM3U", "#EXT-X-VERSION:7", streamInfLine w h B, v, ""] ∧
    ((splitLines (buildMasterPlaylist v w h B)).filter
      (fun l => strStartsWith l "#EXT-X-STREAM-INF")).length = 1 ∧
    (∃ pre post, streamInfLine w h B =
      pre ++ ",AVERAGE-BANDWIDTH=" ++ Nat.repr (B * 85 / 100) ++ ",RESOLUTION=" ++ post) ∧
    ((B * 85 / 100 : Nat) : ℤ) = ⌊(B : ℚ) * (85 / 100)⌋ ∧
    (buildMasterPlaylist v w h B).data.getLast? = some '\n' := by
  have hsplit := splitLines_build v w h B hv
  have hs3 : strStartsWith (streamInfLine w h B) "#EXT-X-STREAM-INF" = true := by
    unfold strStartsWith streamInfLine
    simp only [String.data_append, List.append_assoc]
    exact isPrefixOf_append_left _ (by decide)
  have hs4 : strStartsWith v "#EXT-X-STREAM-INF" = false := by
    cases hb : strStartsWith v "#EXT-X-STREAM-INF" with
    | false => rfl
    | true => exact absurd hb hv2
  have hs1 : strStartsWith "#EXTM3U" "#EXT-X-STREAM-INF" = false := by decide
  have hs2 : strStartsWith "#EXT-X-VERSION:7" "#EXT-X-STREAM-INF" = false := by decide
  have hs5 : strStartsWith "" "#EXT-X-STREAM-INF" = false := by decide
  refine ⟨hsplit, ?_, ?_, ?_, ?_⟩
  · rw [hsplit]
    simp [List.filter, hs1, hs2, hs3, hs4, hs5]
  · refine ⟨"#EXT-X-STREAM-INF:BANDWIDTH=" ++ Nat.repr B,
      Nat.repr w ++ "x" ++ Nat.repr h ++ ",CODECS=\"avc1.64001f,mp4a.40.2\"", ?_⟩
    unfold streamInfLine
    simp [String.append_assoc]
  · have hcast : (B : ℚ) * (85 / 100) = ((B * 85 : Nat) : ℚ) / ((100 : Nat) : ℚ) := by
      push_cast
      ring
    rw [hcast, Rat.floor_natCast_div_natCast]
    exact_mod_cast rfl
  · unfold buildMasterPlaylist
    have hn : ("\n" : String).data = ['\n'] := rfl
    have hform :
        ("#EXTM3U" ++ "\n" ++ "#EXT-X-VERSION:7" ++ "\n" ++ streamInfLine w h B ++ "\n" ++
            v ++ "\n").data =
          ("#EXTM3U".data ++ ['\n'] ++ "#EXT-X-VERSION:7".data ++ ['\n'] ++
            (streamInfLine w h B).data ++ ['\n'] ++ v.data) ++ ['\n'] := by
      simp [String.data_append, hn, List.append_assoc]
    rw [hform]
    exact List.getLast?_concat _

/-- C5, witness. -/
theorem masterPlaylistShape_witness :
    splitLines (buildMasterPlaylist "v720p.m3u8" 1280 720 2128000) =
      ["#EXTM3U", "#EXT-X-VERSION:7", streamInfLine 1280 720 2128000, "v720p.m3u8", ""] ∧
    ((splitLines (buildMasterPlaylist "v720p.m3u8" 1280 720 2128000)).filter
      (fun l => strStartsWith l "#EXT-X-STREAM-INF")).length = 1 ∧
    (∃ pre post, streamInfLine 1280 720 2128000 =
      pre ++ ",AVERAGE-BANDWIDTH=" ++ Nat.repr (2128000 * 85 / 100) ++ ",RESOLUTION=" ++ post) ∧
    ((2128000 * 85 / 100 : Nat) : ℤ) = ⌊(2128000 : ℚ) * (85 / 100)⌋ ∧
    (buildMasterPlaylist "v720p.m3u8" 1280 720 2128000).data.getLast? = some '\n' :=
  masterPlaylistShape "v720p.m3u8" 1280 720 2128000 (by decide) (by decide)

/-- Membership in the `Set`-building fold of `parseHlsFiles`. -/
lemma mem_parse_foldl (lines : List String) :
    ∀ (init : List String) (x : String),
      (x ∈ lines.foldl
        (fun acc line =>
          match lineContribution line with
          | some y => addUnique acc y
          | none => acc) init) ↔
        x ∈ init ∨ ∃ l ∈ lines, lineContribution l = some x := by
  induction lines with
  | nil => simp
  | cons l ls ih =>
    intro init x
    rw [List.foldl_cons]
    cases hc : lineContribution l with
    | none =>
      simp only [hc]
      rw [ih]
      simp [hc]
    | some y =>
      simp only [hc]
      rw [ih, mem_addUnique]
      simp only [List.mem_cons, hc]
      constructor
      · rintro ((hx | rfl) | ⟨l2, hl2, hcl2⟩)
        · exact Or.inl hx
        · exact Or.inr ⟨l, Or.inl rfl, hc⟩
        · exact Or.inr ⟨l2, Or.inr hl2, hcl2⟩
      · rintro (hx | ⟨l2, (rfl | hl2), hcl2⟩)
        · exact Or.inl (Or.inl hx)
        · rw [hc] at hcl2
          exact Or.inl (Or.inr (Option.some.inj hcl2).symm)
        · exact Or.inr ⟨l2, hl2, hcl2⟩

lemma mem_parseHlsFilesList {t x : String} :
    x ∈ parseHlsFilesList t ↔ ∃ l ∈ splitLines t, lineContribution l = some x := by
  unfold parseHlsFilesList
  rw [mem_parse_foldl]
  simp

lemma lineContribution_eq_some (l x : String) :
    lineContribution l = some x ↔
      (l ≠ "" ∧ ¬ strStartsWith l "#" ∧ x = strTrim l) ∨
      (strStartsWith l "#EXT-X-MAP" ∧ uriMatch l = some x) := by
  unfold lineContribution
  by_cases h1 : l = "" ∨ strStartsWith l "#"
  · rw [if_pos h1]
    by_cases h2 : strStartsWith l "#EXT-X-MAP" = true
    · rw [if_pos h2]
      constructor
      · intro hm
        exact Or.inr ⟨h2, hm⟩
      · rintro (⟨hne, hns, _⟩ | ⟨_, hm⟩)
        · rcases h1 with h | h
          · exact absurd h hne
          · exact absurd h hns
        · exact hm
    · rw [if_neg h2]
      constructor
      · intro hm
        exact absurd hm (by simp)
      · rintro (⟨hne, hns, _⟩ | ⟨hmap, _⟩)
        · rcases h1 with h | h
          · exact absurd h hne
          · exact absurd h hns
        · exact absurd hmap h2
  · rw [if_neg h1]
    push_neg at h1
    constructor
    · intro hm
      exact Or.inl ⟨h1.1, h1.2, (Option.some.inj hm).symm⟩
    · rintro (⟨_, _, rfl⟩ | ⟨hmap, _⟩)
      · rfl
      · exact absurd (strStartsWith_hash hmap) h1.2

/-- C6, counterexample. The claim says the returned set is the set of
the non-comment, non-blank lines themselves. On the input `"  seg.m4s"`
(one line with leading spaces, no `#EXT-X-MAP` tag anywhere) the function
returns `{"seg.m4s"}`: the single element is the trimmed form and is not a
line of the input, and the set of the input's lines, `{"  seg.m4s"}`, is
not the returned set. -/
theorem parseHlsFilesTrimsLines :
    splitLines "  seg.m4s" = ["  seg.m4s"] ∧
    (∀ l ∈ splitLines "  seg.m4s", ¬ strStartsWith l "#EXT-X-MAP") ∧
    parseHlsFiles "  seg.m4s" = {"seg.m4s"} ∧
    "seg.m4s" ∉ splitLines "  seg.m4s" ∧
    parseHlsFiles "  seg.m4s" ≠ {"  seg.m4s"} := by
  decide

/-- C6, amended. `parseHlsFiles` returns the set of the trimmed
forms of all non-empty lines that do not start with `#`, plus, for each
comment line starting with the initialization-segment-map tag
`#EXT-X-MAP`, the capture of the `/URI="([^"]+)"/` match on it; duplicates
collapse by set semantics. In particular, on the literal input
`#EXTM3U\n#EXT-X-MAP:URI="init.mp4"\nseg0.m4s\nseg1.m4s\n` it returns
exactly `{"init.mp4", "seg0.m4s", "seg1.m4s"}`. -/
theorem parseHlsFilesCharacterization (t x : String) :
    (x ∈ parseHlsFiles t ↔
      (∃ l ∈ splitLines t, l ≠ "" ∧ ¬ strStartsWith l "#" ∧ x = strTrim l) ∨
      (∃ l ∈ splitLines t, strStartsWith l "#EXT-X-MAP" ∧ uriMatch l = some x)) ∧
    parseHlsFiles "#EXTM3U\n#EXT-X-MAP:URI=\"init.mp4\"\nseg0.m4s\nseg1.m4s\n" =
      {"init.mp4", "seg0.m4s", "seg1.m4s"} := by
  constructor
  · rw [parseHlsFiles, List.mem_toFinset, mem_parseHlsFilesList]
    simp only [lineContribution_eq_some]
    constructor
    · rintro ⟨l, hl, hP | hQ⟩
      · exact Or.inl ⟨l, hl, hP⟩
      · exact Or.inr ⟨l, hl, hQ⟩
    · rintro (⟨l, hl, hP⟩ | ⟨l, hl, hQ⟩)
      · exact ⟨l, hl, Or.inl hP⟩
      · exact ⟨l, hl, Or.inr hQ⟩
  · decide

end IngestStreamForge
